import Mathlib

/-!
Shallow embedding of the document ingestion & processing pipeline of the
calendar-backend repository, together with theorems settling the frozen
claims about its specification.

Embedded source files:
* `src/services/googleDriveDocuments.ts` — the Document Registry
  (`saveDocument`, `saveDocuments`, `getDocumentById`,
  `updateProcessingStatus`, `markAsProcessed`, `markAsFailed`).
* `src/services/langflow.ts` — the Processing Worker
  (`processDocument`, `processAllUnprocessedDocuments`).
* the file manager service (`downloadAllUserFiles`, `chunkArray`,
  `createSafeFileName`, `saveFileToLocal`, `fileExists`, `deleteFile`).
* `src/services/cronjob.ts` — the Scheduler, as a step relation.

Conventions of the embedding:
* Postgres `now()` is modelled by a logical clock carried on the registry
  state; every mutating statement stamps `updated_at` with the current
  clock value and advances the clock.
* A thrown JS exception from a single SQL statement leaves the database
  unchanged; this is modelled by `Except` results, the `.error` case
  carrying the message and the caller keeping its prior state.
* The possibility that the underlying store raises on an individual row
  of the batch upsert (a constraint/transaction failure) is abstracted as
  a boolean oracle on the row; `BEGIN`/`COMMIT`/`ROLLBACK` semantics are
  taken from the source of `saveDocuments`.
* Opaque payloads (file bytes, the external processor's JSON result) are
  modelled as `Nat` tags / `String` tags; only identity matters.
-/

namespace CalBack

/-- The `processing_status` enum of `user_google_documents`
(`pending | processing | completed | failed`). -/
inductive ProcStatus
  | pending
  | processing
  | completed
  | failed
deriving DecidableEq, Repr

/-- A row of `public.user_google_documents`, after the `GoogleDriveDocument`
interface of `googleDriveDocuments.ts` (dates as logical `Nat` stamps,
the opaque `result` JSON as a `String` tag). -/
structure Document where
  id : Nat
  user_id : String
  google_drive_file_id : String
  file_name : String
  file_path : String
  mime_type : String
  file_size : Option Nat
  google_drive_web_view_link : Option String
  last_modified_at : Option Nat
  processed : Bool
  processing_status : ProcStatus
  processing_error : Option String
  result : Option String
  local_file_path : Option String
  downloaded_at : Option Nat
  created_at : Nat
  updated_at : Nat
deriving DecidableEq, Repr

/-- The `DocumentToSave` interface of `googleDriveDocuments.ts`. -/
structure DocumentToSave where
  user_id : String
  google_drive_file_id : String
  file_name : String
  file_path : String
  mime_type : String
  file_size : Option Nat
  google_drive_web_view_link : Option String
  last_modified_at : Option Nat
  local_file_path : Option String
  downloaded_at : Option Nat
deriving DecidableEq, Repr

/-- The persistent state behind the Document Registry: the table rows, the
id sequence, and a logical clock standing for `now()`. -/
structure Registry where
  rows : List Document
  nextSerial : Nat
  clock : Nat
deriving DecidableEq, Repr

/-- `getDocumentById` — `SELECT * FROM user_google_documents WHERE id = $1`,
`null` when no row matches. -/
def getDocumentById (reg : Registry) (i : Nat) : Option Document :=
  reg.rows.find? (fun d => d.id == i)

/-- `updateProcessingStatus(documentId, status, error?)`:
`UPDATE ... SET processed = (status === "completed"), processing_status = status,
processing_error = error, updated_at = now() WHERE id = $1 RETURNING *`;
throws `Document with ID ... not found` when no row matched.
The `error` argument is `none` when omitted at the call site, which the
driver sends as SQL `null`. -/
def updateProcessingStatus (reg : Registry) (i : Nat) (status : ProcStatus)
    (error : Option String) : Except String Registry :=
  if reg.rows.any (fun d => d.id == i) then
    Except.ok
      { reg with
        rows := reg.rows.map fun d =>
          if d.id = i then
            { d with
              processed := decide (status = ProcStatus.completed)
              processing_status := status
              processing_error := error
              updated_at := reg.clock }
          else d
        clock := reg.clock + 1 }
  else
    Except.error ("Document with ID " ++ toString i ++ " not found")

/-- `markAsProcessed(documentId, additionalData?)`:
`UPDATE ... SET processed = true,
processing_status = additionalData?.processing_status || "completed"
[, result = $3] , updated_at = now() WHERE id = $1`;
throws when no row matched. -/
def markAsProcessed (reg : Registry) (i : Nat) (result : Option String)
    (status : Option ProcStatus) : Except String Registry :=
  if reg.rows.any (fun d => d.id == i) then
    Except.ok
      { reg with
        rows := reg.rows.map fun d =>
          if d.id = i then
            { d with
              processed := true
              processing_status := status.getD ProcStatus.completed
              result := result.or d.result
              updated_at := reg.clock }
          else d
        clock := reg.clock + 1 }
  else
    Except.error ("Document with ID " ++ toString i ++ " not found")

/-- `markAsFailed(documentId, error)` delegates to
`updateProcessingStatus(documentId, "failed", error)`. -/
def markAsFailed (reg : Registry) (i : Nat) (error : String) :
    Except String Registry :=
  updateProcessingStatus reg i ProcStatus.failed (some error)

/-- The fresh row inserted by the upsert queries: column defaults from
`migration_004_add_result_field.sql` (`processed boolean default false`,
`processing_status text default 'pending'`). -/
def insertRow (reg : Registry) (doc : DocumentToSave)
    (localPath : Option String) (downloadedAt : Option Nat) : Document :=
  { id := reg.nextSerial
    user_id := doc.user_id
    google_drive_file_id := doc.google_drive_file_id
    file_name := doc.file_name
    file_path := doc.file_path
    mime_type := doc.mime_type
    file_size := doc.file_size
    google_drive_web_view_link := doc.google_drive_web_view_link
    last_modified_at := doc.last_modified_at
    processed := false
    processing_status := ProcStatus.pending
    processing_error := none
    result := none
    local_file_path := localPath
    downloaded_at := downloadedAt
    created_at := reg.clock
    updated_at := reg.clock }

/-- Whether the registry already holds the `(user_id, google_drive_file_id)`
key of `doc` — the `ON CONFLICT` target. -/
def hasConflict (reg : Registry) (doc : DocumentToSave) : Bool :=
  reg.rows.any fun d =>
    d.user_id == doc.user_id && d.google_drive_file_id == doc.google_drive_file_id

/-- `saveDocument(document)` — the single-row 8-column upsert: inserts, or on
`(user_id, google_drive_file_id)` conflict updates only the descriptive
metadata columns and `updated_at` (not `local_file_path`/`downloaded_at`,
not the processing columns). -/
def saveDocument (reg : Registry) (doc : DocumentToSave) : Registry :=
  if hasConflict reg doc then
    { reg with
      rows := reg.rows.map fun d =>
        if d.user_id = doc.user_id ∧ d.google_drive_file_id = doc.google_drive_file_id then
          { d with
            file_name := doc.file_name
            file_path := doc.file_path
            mime_type := doc.mime_type
            file_size := doc.file_size
            google_drive_web_view_link := doc.google_drive_web_view_link
            last_modified_at := doc.last_modified_at
            updated_at := reg.clock }
        else d
      clock := reg.clock + 1 }
  else
    { reg with
      rows := reg.rows ++ [insertRow reg doc none none]
      nextSerial := reg.nextSerial + 1
      clock := reg.clock + 1 }

/-- The per-row 10-column upsert executed inside the `saveDocuments`
transaction: like `saveDocument` but also writing `local_file_path` and
`downloaded_at` on both insert and conflict-update. -/
def saveDocumentsRow (reg : Registry) (doc : DocumentToSave) : Registry :=
  if hasConflict reg doc then
    { reg with
      rows := reg.rows.map fun d =>
        if d.user_id = doc.user_id ∧ d.google_drive_file_id = doc.google_drive_file_id then
          { d with
            file_name := doc.file_name
            file_path := doc.file_path
            mime_type := doc.mime_type
            file_size := doc.file_size
            google_drive_web_view_link := doc.google_drive_web_view_link
            last_modified_at := doc.last_modified_at
            local_file_path := doc.local_file_path
            downloaded_at := doc.downloaded_at
            updated_at := reg.clock }
        else d
      clock := reg.clock + 1 }
  else
    { reg with
      rows := reg.rows ++ [insertRow reg doc doc.local_file_path doc.downloaded_at]
      nextSerial := reg.nextSerial + 1
      clock := reg.clock + 1 }

/-- The loop body of the `saveDocuments` transaction: row upserts applied in
order to the transaction-local state, aborting at the first row on which
the underlying store raises (`dbFails` abstracts that possibility). -/
def saveDocumentsGo (dbFails : DocumentToSave → Bool) :
    Registry → List DocumentToSave → Except String Registry
  | reg, [] => Except.ok reg
  | reg, doc :: rest =>
      if dbFails doc then Except.error "Failed to save documents"
      else saveDocumentsGo dbFails (saveDocumentsRow reg doc) rest

/-- `saveDocuments(documents)` — `BEGIN`; per-row upserts; `COMMIT`, or
`ROLLBACK` (returning the caller's registry unchanged) and rethrow if any
row's query raised. The second component reports commit/abort. -/
def saveDocuments (reg : Registry) (docs : List DocumentToSave)
    (dbFails : DocumentToSave → Bool) : Registry × Except String Unit :=
  match saveDocumentsGo dbFails reg docs with
  | Except.ok reg1 => (reg1, Except.ok ())
  | Except.error e => (reg, Except.error e)

/-! ### Local staging filesystem

The staging area is modelled as a list of `(path, content-tag)` entries;
`writeFileSync` overwrites any prior entry at the same path, matching a
real filesystem where paths are unique. -/

/-- The staged-files filesystem: `(path, content-tag)` entries. -/
abbrev FS := List (String × Nat)

/-- `fs.existsSync(path)` on the staging area. -/
def fileExists (fs : FS) (p : String) : Bool :=
  fs.any (fun e => e.1 == p)

/-- `fs.writeFileSync(path, buffer)`: overwrite-or-create at `path`. -/
def writeFileSync (fs : FS) (p : String) (v : Nat) : FS :=
  (p, v) :: fs.filter (fun e => e.1 != p)

/-- `deleteFile(localPath)` of the file manager: unlink if present and
return `true`, otherwise return `false`; never throws. -/
def deleteFile (fs : FS) (p : String) : FS × Bool :=
  if fileExists fs p then (fs.filter (fun e => e.1 != p), true)
  else (fs, false)

/-- Number of filesystem entries at `path`. -/
def fsCount (fs : FS) (p : String) : Nat :=
  (fs.filter (fun e => e.1 == p)).length

/-! ### Processing Worker (`langflow.ts`) -/

/-- Observable effects of a worker run: registry status writes, calls to the
external Langflow backend, staged-file deletions, inter-document sleeps. -/
inductive Ev
  | statusSet (id : Nat) (st : ProcStatus)
  | extCall
  | fileDel (p : String)
  | slept
deriving DecidableEq, Repr

/-- The value of one `processDocument` run: final registry and filesystem,
the effect trace, and the returned `LangflowFlowResult`'s
`success`/`error` fields. -/
structure PDocOut where
  reg : Registry
  fs : FS
  trace : List Ev
  success : Bool
  error : Option String
deriving DecidableEq, Repr

/-- The `catch` block of `processDocument`: mark the document failed with the
thrown message and return `{success: false, error}`; if `markAsFailed`
itself throws (the id does not exist) the whole promise rejects, which is
the outer `Except.error`. -/
def pdocCatch (reg : Registry) (fs : FS) (tr : List Ev) (docId : Nat)
    (msg : String) : Except String PDocOut :=
  match markAsFailed reg docId msg with
  | Except.ok reg1 =>
      Except.ok ⟨reg1, fs, tr ++ [Ev.statusSet docId ProcStatus.failed], false, some msg⟩
  | Except.error m => Except.error m

/-- `processDocument(documentId)` of `langflow.ts`. The two HTTP helpers are
abstracted as oracles: `upload` is the outcome of `uploadFileToLangflow`
(`ok fileId` or the failure message) and `runFlow` the outcome of
`runLangflowFlow` on that file id. Control flow follows the source:
fetch the row; set status `processing` (error argument omitted); throw if
`local_file_path` is null; throw if the staged file is absent; upload;
run the flow; `markAsProcessed` with the result and status `completed`;
delete the staged file; any throw is routed to the catch block. -/
def processDocument (upload : Except String String)
    (runFlow : String → Except String String)
    (reg : Registry) (fs : FS) (docId : Nat) : Except String PDocOut :=
  match getDocumentById reg docId with
  | none => pdocCatch reg fs [] docId ("Document not found: " ++ toString docId)
  | some doc =>
    match updateProcessingStatus reg docId ProcStatus.processing none with
    | Except.error m => pdocCatch reg fs [] docId m
    | Except.ok reg1 =>
      match doc.local_file_path with
      | none =>
          pdocCatch reg1 fs [Ev.statusSet docId ProcStatus.processing] docId
            "No local file path found for document"
      | some p =>
        if fileExists fs p then
          match upload with
          | Except.error e =>
              pdocCatch reg1 fs [Ev.statusSet docId ProcStatus.processing, Ev.extCall]
                docId ("File upload failed: " ++ e)
          | Except.ok fileId =>
            match runFlow fileId with
            | Except.error e =>
                pdocCatch reg1 fs
                  [Ev.statusSet docId ProcStatus.processing, Ev.extCall, Ev.extCall]
                  docId ("Flow execution failed: " ++ e)
            | Except.ok res =>
              match markAsProcessed reg1 docId (some res) (some ProcStatus.completed) with
              | Except.error m =>
                  pdocCatch reg1 fs
                    [Ev.statusSet docId ProcStatus.processing, Ev.extCall, Ev.extCall]
                    docId m
              | Except.ok reg2 =>
                  Except.ok ⟨reg2, (deleteFile fs p).1,
                    [Ev.statusSet docId ProcStatus.processing, Ev.extCall, Ev.extCall,
                     Ev.statusSet docId ProcStatus.completed, Ev.fileDel p],
                    true, none⟩
        else
          pdocCatch reg1 fs [Ev.statusSet docId ProcStatus.processing] docId
            ("Local file not found: " ++ p)

/-- Insertion into a list kept ascending by `created_at` — used to embed
`ORDER BY created_at ASC`. -/
def insertByCreated (d : Document) : List Document → List Document
  | [] => [d]
  | e :: es =>
      if d.created_at < e.created_at then d :: e :: es
      else e :: insertByCreated d es

/-- `ORDER BY created_at ASC` as an insertion sort. -/
def sortByCreatedAsc (l : List Document) : List Document :=
  l.foldr insertByCreated []

/-- The batch driver's fetch:
`SELECT * FROM user_google_documents WHERE processed = false
ORDER BY created_at ASC LIMIT 100`. -/
def unprocessedQuery (reg : Registry) : List Document :=
  (sortByCreatedAsc (reg.rows.filter (fun d => d.processed == false))).take 100

/-- The result and final state of one `processAllUnprocessedDocuments` run. -/
structure BatchOut where
  reg : Registry
  fs : FS
  trace : List Ev
  total : Nat
  processed : Nat
  failed : Nat
deriving DecidableEq, Repr

/-- The sequential loop of `processAllUnprocessedDocuments`: one document at
a time; a returned failure increments `failed`; a 1-second sleep follows
every non-throwing iteration; a thrown error is caught, counted as
`failed`, and the loop continues. Oracles are supplied per document id. -/
def processAllGo (upload : Nat → Except String String)
    (runFlow : Nat → String → Except String String) :
    List Document → Registry → FS → List Ev → Nat → Nat →
      Registry × FS × List Ev × Nat × Nat
  | [], reg, fs, tr, p, f => (reg, fs, tr, p, f)
  | doc :: rest, reg, fs, tr, p, f =>
    match processDocument (upload doc.id) (runFlow doc.id) reg fs doc.id with
    | Except.ok out =>
        processAllGo upload runFlow rest out.reg out.fs
          (tr ++ out.trace ++ [Ev.slept])
          (if out.success then p + 1 else p)
          (if out.success then f else f + 1)
    | Except.error _ =>
        processAllGo upload runFlow rest reg fs tr p (f + 1)

/-- `processAllUnprocessedDocuments()` of `langflow.ts`: fetch up to 100 rows
with `processed = false` oldest-first across all users, process them
strictly sequentially, and report `{total, processed, failed}`. -/
def processAllUnprocessedDocuments (upload : Nat → Except String String)
    (runFlow : Nat → String → Except String String)
    (reg : Registry) (fs : FS) : BatchOut :=
  let docs := unprocessedQuery reg
  let r := processAllGo upload runFlow docs reg fs [] 0 0
  ⟨r.1, r.2.1, r.2.2.1, docs.length, r.2.2.2.1, r.2.2.2.2⟩

/-! ### File manager: download batching and local staging -/

/-- A remote file as passed to `downloadAllUserFiles`
(`{id, name, mimeType}`). -/
structure DriveFile where
  id : String
  name : String
  mimeType : String
deriving DecidableEq, Repr

/-- The file manager's MIME allow-list (`isSupportedDocumentType`). -/
def supportedTypes : List String :=
  ["application/pdf",
   "application/vnd.openxmlformats-officedocument.wordprocessingml.document",
   "application/msword",
   "text/plain",
   "text/markdown"]

/-- `isSupportedDocumentType(mimeType)`. -/
def isSupportedDocumentType (m : String) : Bool :=
  supportedTypes.contains m

/-- `chunkArray(array, chunkSize)`: the source loop
`for (i = 0; i < length; i += chunkSize) push(array.slice(i, i + chunkSize))`,
transcribed as a map over the iteration indices `0, n, 2n, ...`
(`⌈length / n⌉` of them). The source loops forever on `chunkSize = 0`;
that argument never occurs (the only call sites pass 3), and this
transcription returns `[]` there. -/
def chunkArray (l : List α) (n : Nat) : List (List α) :=
  (List.range ((l.length + n - 1) / n)).map fun i => (l.drop (i * n)).take n

/-- Observable effects of `downloadAllUserFiles`: an attempted per-file
download, or an inter-batch sleep (the source emits none of the latter). -/
inductive DlEvent
  | download (fileId : String)
  | slept
deriving DecidableEq, Repr

/-- The chunk loop of `downloadAllUserFiles`: per chunk, every member is
attempted (concurrently in the source; member results keep list order via
`Promise.all`), a per-file throw is caught and mapped to `null`, and the
non-`null` results are appended. The body contains no inter-chunk sleep.
`oracle` gives each file id's download outcome (`none` = throw). -/
def dlGo (oracle : String → Option Nat) :
    List (List DriveFile) → List (String × Nat) × List DlEvent
  | [] => ([], [])
  | c :: cs =>
      let res := c.filterMap fun f => (oracle f.id).map fun t => (f.id, t)
      let evs := c.map fun f => DlEvent.download f.id
      let r := dlGo oracle cs
      (res ++ r.1, evs ++ r.2)

/-- `downloadAllUserFiles(userId, accessToken, files)`: filter to the MIME
allow-list, split into chunks of `maxConcurrentDownloads = 3`, download
chunk by chunk, dropping failed files from the result. -/
def downloadAllUserFiles (oracle : String → Option Nat)
    (files : List DriveFile) : List (String × Nat) × List DlEvent :=
  dlGo oracle (chunkArray (files.filter fun f => isSupportedDocumentType f.mimeType) 3)

/-- The character class the sanitizer keeps: `[a-zA-Z0-9.-]`
(the complement of the regex `[^a-zA-Z0-9.-]`). -/
def isSafeChar (c : Char) : Bool :=
  c.isAlphanum || c == '.' || c == '-'

/-- `.replace(/_+/g, "_")`: collapse every run of underscores to one. -/
def collapseUnderscores : List Char → List Char
  | [] => []
  | [c] => [c]
  | c1 :: c2 :: rest =>
      if c1 = '_' ∧ c2 = '_' then collapseUnderscores (c2 :: rest)
      else c1 :: collapseUnderscores (c2 :: rest)

/-- `.replace(/^_|_$/g, "")`: drop one leading and one trailing underscore
(after collapsing, runs are single, so this strips the edges). -/
def stripEdgeUnderscores (l : List Char) : List Char :=
  let l1 := match l with
    | [] => []
    | c :: rest => if c = '_' then rest else c :: rest
  if l1.getLast? = some '_' then l1.dropLast else l1

/-- `createSafeFileName(fileName)`:
`fileName.replace(/[^a-zA-Z0-9.-]/g, "_").replace(/_+/g, "_").replace(/^_|_$/g, "")`. -/
def createSafeFileName (fileName : String) : String :=
  String.mk (stripEdgeUnderscores (collapseUnderscores
    (fileName.data.map fun c => if isSafeChar c then c else '_')))

/-- The staging root `path.join(process.cwd(), "temp", "google-drive-files")`
(the `cwd` prefix is a constant and is dropped). -/
def tempDir : String := "temp/google-drive-files"

/-- `saveFileToLocal(fileBuffer, fileName, userId, fileId)`: write the buffer
to `{tempDir}/{userId}/{fileId}_{createSafeFileName(fileName)}`,
overwriting any prior file at that path; return the path. -/
def saveFileToLocal (fs : FS) (fileBuffer : Nat)
    (fileName userId fileId : String) : FS × String :=
  let localPath := tempDir ++ "/" ++ userId ++ "/" ++ fileId ++ "_" ++
    createSafeFileName fileName
  (writeFileSync fs localPath fileBuffer, localPath)

/-! ### Scheduler (`cronjob.ts`) as a step relation

State: the `isRunning` flag (whether the node-cron job is scheduled) and
the number of batch-driver invocations currently in flight. The cron
timer fires whenever the job is scheduled — the source's callback
contains no check of any busy state, and node-cron does not wait for a
previous async callback — so `tick` is enabled regardless of `inFlight`.
`triggerProcessing()` can be called at any time. -/

/-- Scheduler state: the service's `isRunning` flag plus how many
batch-driver invocations are currently in flight. -/
structure SchedState where
  isRunning : Bool
  inFlight : Nat
deriving DecidableEq, Repr

/-- One observable step of the `CronjobService`. -/
inductive SchedStep : SchedState → SchedState → Prop
  | startIdle (s : SchedState) :
      s.isRunning = false → SchedStep s { s with isRunning := true }
  | startBusy (s : SchedState) :
      s.isRunning = true → SchedStep s s
  | stopRun (s : SchedState) :
      s.isRunning = true → SchedStep s { s with isRunning := false }
  | stopIdle (s : SchedState) :
      s.isRunning = false → SchedStep s s
  | tick (s : SchedState) :
      s.isRunning = true → SchedStep s { s with inFlight := s.inFlight + 1 }
  | triggerNow (s : SchedState) :
      SchedStep s { s with inFlight := s.inFlight + 1 }
  | finish (s : SchedState) :
      0 < s.inFlight → SchedStep s { s with inFlight := s.inFlight - 1 }

/-- The service starts not running with nothing in flight. -/
def schedInit : SchedState := ⟨false, 0⟩

/-- States the scheduler can reach from its initial state. -/
def SchedReachable (s : SchedState) : Prop :=
  Relation.ReflTransGen SchedStep schedInit s

/-! ### Helper lemmas about the row-update maps of the registry -/

/-- A row of the updated table that carries the targeted id comes from a row
of the old table with that id, with the update applied. -/
theorem row_of_mem_updateMap {rows : List Document} {i : Nat}
    {f : Document → Document} {d' : Document}
    (h : d' ∈ rows.map fun d => if d.id = i then f d else d) (hid : d'.id = i) :
    ∃ d, d ∈ rows ∧ d.id = i ∧ d' = f d := by
  rcases List.mem_map.mp h with ⟨d, hd, hEq⟩
  by_cases hc : d.id = i
  · refine ⟨d, hd, hc, ?_⟩
    rw [← hEq, if_pos hc]
  · exfalso
    rw [← hEq, if_neg hc] at hid
    exact hc hid

/-- An id-preserving row update leaves the `WHERE id = i` match unchanged. -/
theorem any_id_map_update {rows : List Document} {i j : Nat}
    {f : Document → Document} (hf : ∀ d, (f d).id = d.id) :
    ((rows.map fun d => if d.id = j then f d else d).any fun d => d.id == i) =
      (rows.any fun d => d.id == i) := by
  induction rows with
  | nil => rfl
  | cons d rest ih =>
      have hhead : (if d.id = j then f d else d).id = d.id := by
        by_cases hc : d.id = j
        · rw [if_pos hc, hf]
        · rw [if_neg hc]
      simp [List.map_cons, List.any_cons, ih, hhead]

/-- A row update that preserves a projection preserves the projected column
of the whole table. -/
theorem map_proj_update {β : Type} {rows : List Document} {i : Nat}
    {f : Document → Document} {proj : Document → β}
    (hf : ∀ d, proj (f d) = proj d) :
    (rows.map fun d => if d.id = i then f d else d).map proj = rows.map proj := by
  induction rows with
  | nil => rfl
  | cons d rest ih =>
      have hhead : proj (if d.id = i then f d else d) = proj d := by
        by_cases hc : d.id = i
        · rw [if_pos hc, hf]
        · rw [if_neg hc]
      simp [List.map_cons, ih, hhead]

/-! ### Concrete fixtures -/

/-- A freshly discovered document row: status `pending`, not processed, no
staged copy recorded. -/
def docPending : Document :=
  { id := 1
    user_id := "u1"
    google_drive_file_id := "g1"
    file_name := "a.txt"
    file_path := "a.txt"
    mime_type := "text/plain"
    file_size := some 10
    google_drive_web_view_link := none
    last_modified_at := none
    processed := false
    processing_status := ProcStatus.pending
    processing_error := none
    result := none
    local_file_path := none
    downloaded_at := none
    created_at := 0
    updated_at := 0 }

/-- A registry holding the single pending document. -/
def regOnePending : Registry := ⟨[docPending], 2, 3⟩

/-! ### C10 — `updateProcessingStatus` unconditionally overwrites
`processing_error` -/

/-- C10 (confirmed): for every run of `updateProcessingStatus` that succeeds,
every row carrying the targeted id ends with `processing_error` equal to the
supplied error argument (`none` when the argument was omitted),
`processing_status` equal to the supplied status, and `processed` derived
from it — so transitioning a previously failed document to `pending` or
`processing` without an error argument erases the recorded failure reason. -/
theorem c10_update_overwrites_error (reg reg1 : Registry) (i : Nat)
    (st : ProcStatus) (err : Option String)
    (h : updateProcessingStatus reg i st err = Except.ok reg1) :
    ∀ d' ∈ reg1.rows, d'.id = i →
      d'.processing_error = err ∧ d'.processing_status = st ∧
      d'.processed = decide (st = ProcStatus.completed) := by
  unfold updateProcessingStatus at h
  split at h
  · injection h with h1
    subst h1
    intro d' hmem hid
    rcases row_of_mem_updateMap hmem hid with ⟨d0, _, _, rfl⟩
    exact ⟨rfl, rfl, rfl⟩
  · cases h

/-- A previously failed row with a recorded failure reason. -/
def docStaleFailed : Document :=
  { docPending with
    processing_status := ProcStatus.failed
    processing_error := some "previous failure" }

/-- Registry holding the stale failed row, clock at 5. -/
def regStale : Registry := ⟨[docStaleFailed], 2, 5⟩

/-- The row after `updateProcessingStatus(1, "pending")` with the error
argument omitted: the failure reason is gone. -/
def docRevived : Document := { docPending with updated_at := 5 }

/-- The registry after reviving the stale failed row. -/
def regRevived : Registry := ⟨[docRevived], 2, 6⟩

/-- Witness for C10: resetting the stale failed document to `pending` with no
error argument leaves `processing_error = none`. -/
theorem c10_witness :
    docRevived.processing_error = none ∧
    docRevived.processing_status = ProcStatus.pending ∧
    docRevived.processed = decide (ProcStatus.pending = ProcStatus.completed) :=
  c10_update_overwrites_error regStale regRevived 1 ProcStatus.pending none
    (by rfl) docRevived (by decide) rfl

/-! ### C4 — setting `failed` with an empty/missing error is NOT rejected -/

/-- Counterexample to C4: `updateProcessingStatus(1, "failed")` with the error
argument omitted is not rejected — it succeeds and changes the row, recording
`processing_error = null`, contradicting the claim that the transition fails
and the row is unchanged. -/
theorem c4_counterexample :
    updateProcessingStatus regOnePending 1 ProcStatus.failed none =
      Except.ok ⟨[{ docPending with
                     processing_status := ProcStatus.failed
                     processing_error := none
                     updated_at := 3 }], 2, 4⟩ ∧
    ({ docPending with
        processing_status := ProcStatus.failed
        processing_error := none
        updated_at := 3 } : Document) ≠ docPending := by
  exact ⟨by rfl, by decide⟩

/-- C4 as amended: the registry-level transition performs no validation of
the error message. Whenever the targeted id exists, setting `failed` succeeds
for every error argument — including the omitted one — and records the
argument verbatim as `processing_error` (rejection of `failed` without an
error happens only in the HTTP route handler, outside the registry). -/
theorem c4_failed_transition_never_rejected (reg : Registry) (i : Nat)
    (err : Option String)
    (h : (reg.rows.any fun d => d.id == i) = true) :
    (updateProcessingStatus reg i ProcStatus.failed err).isOk = true ∧
    ∀ reg1, updateProcessingStatus reg i ProcStatus.failed err = Except.ok reg1 →
      ∀ d' ∈ reg1.rows, d'.id = i →
        d'.processing_status = ProcStatus.failed ∧ d'.processing_error = err := by
  constructor
  · unfold updateProcessingStatus
    rw [if_pos h]
    rfl
  · intro reg1 heq
    unfold updateProcessingStatus at heq
    rw [if_pos h] at heq
    injection heq with h1
    subst h1
    intro d' hmem hid
    rcases row_of_mem_updateMap hmem hid with ⟨d0, _, _, rfl⟩
    exact ⟨rfl, rfl⟩

/-- Witness for the amended C4: on the one-pending-document registry, the
`failed` transition with a missing error succeeds. -/
theorem c4_amended_witness :
    (updateProcessingStatus regOnePending 1 ProcStatus.failed none).isOk = true :=
  (c4_failed_transition_never_rejected regOnePending 1 none (by decide)).1

/-! ### C2 — `processed = true` iff `processing_status = completed` -/

/-- One registry operation, as invoked through the service's public
surface. The `dbFails` oracle of `saveDocs` abstracts the underlying
store raising on an individual row of the batch. -/
inductive RegOp
  | saveDoc (d : DocumentToSave)
  | saveDocs (ds : List DocumentToSave) (dbFails : DocumentToSave → Bool)
  | updStatus (i : Nat) (st : ProcStatus) (err : Option String)
  | markProc (i : Nat) (res : Option String) (st : Option ProcStatus)
  | markFail (i : Nat) (err : String)

/-- Apply one operation; a thrown single-statement error leaves the
database unchanged. -/
def applyOp (reg : Registry) : RegOp → Registry
  | RegOp.saveDoc d => saveDocument reg d
  | RegOp.saveDocs ds f => (saveDocuments reg ds f).1
  | RegOp.updStatus i st err =>
      match updateProcessingStatus reg i st err with
      | Except.ok r => r
      | Except.error _ => reg
  | RegOp.markProc i res st =>
      match markAsProcessed reg i res st with
      | Except.ok r => r
      | Except.error _ => reg
  | RegOp.markFail i err =>
      match markAsFailed reg i err with
      | Except.ok r => r
      | Except.error _ => reg

/-- Apply a sequence of registry operations in order. -/
def applyOps (reg : Registry) (ops : List RegOp) : Registry :=
  ops.foldl applyOp reg

/-- The claimed per-row invariant: `processed = true` iff
`processing_status = completed`. -/
def ConsistentRow (d : Document) : Prop :=
  d.processed = true ↔ d.processing_status = ProcStatus.completed

instance (d : Document) : Decidable (ConsistentRow d) := by
  unfold ConsistentRow
  infer_instance

/-- The invariant over the whole registry. -/
def Consistent (reg : Registry) : Prop :=
  ∀ d ∈ reg.rows, ConsistentRow d

instance (reg : Registry) : Decidable (Consistent reg) := by
  unfold Consistent
  exact List.decidableBAll _ _

/-- Counterexample to C2 as stated: `markAsProcessed` with an explicit
`processing_status` other than `"completed"` forces `processed = true`
while leaving `processing_status` at the supplied value, breaking the
claimed invariant for a sequence of public registry operations. -/
theorem c2_counterexample :
    Consistent regOnePending ∧
    ¬ Consistent
      (applyOps regOnePending
        [RegOp.markProc 1 none (some ProcStatus.processing)]) := by
  exact ⟨by decide, by decide⟩

/-- The operations for which the invariant does hold: every
`markAsProcessed` call leaves `additionalData.processing_status` unset or
sets it to `completed` — which is what both call sites in the source do. -/
def GoodOp : RegOp → Prop
  | RegOp.markProc _ _ st => st = none ∨ st = some ProcStatus.completed
  | _ => True

/-- A row map that does not touch `processed`/`processing_status` preserves
the invariant. -/
theorem consistentRow_map {rows : List Document} {g : Document → Document}
    (hg : ∀ d, (g d).processed = d.processed ∧
      (g d).processing_status = d.processing_status)
    (h : ∀ d ∈ rows, ConsistentRow d) :
    ∀ d' ∈ rows.map g, ConsistentRow d' := by
  intro d' hmem
  rcases List.mem_map.mp hmem with ⟨d0, hd0, rfl⟩
  unfold ConsistentRow
  rw [(hg d0).1, (hg d0).2]
  exact h d0 hd0

/-- `saveDocument` preserves the invariant: the conflict update does not
touch the processing columns, and a fresh insert starts
`pending`/`processed = false`. -/
theorem consistent_saveDocument {reg : Registry} (doc : DocumentToSave)
    (h : Consistent reg) : Consistent (saveDocument reg doc) := by
  unfold saveDocument
  split
  · intro d' hmem
    refine consistentRow_map ?_ h d' hmem
    intro d
    by_cases hc : d.user_id = doc.user_id ∧ d.google_drive_file_id = doc.google_drive_file_id
    · rw [if_pos hc]
      exact ⟨rfl, rfl⟩
    · rw [if_neg hc]
      exact ⟨rfl, rfl⟩
  · intro d' hmem
    rcases List.mem_append.mp hmem with hold | hnew
    · exact h d' hold
    · rcases List.mem_singleton.mp hnew with rfl
      unfold ConsistentRow insertRow
      simp

/-- The per-row transaction upsert preserves the invariant, same argument. -/
theorem consistent_saveDocumentsRow {reg : Registry} (doc : DocumentToSave)
    (h : Consistent reg) : Consistent (saveDocumentsRow reg doc) := by
  unfold saveDocumentsRow
  split
  · intro d' hmem
    refine consistentRow_map ?_ h d' hmem
    intro d
    by_cases hc : d.user_id = doc.user_id ∧ d.google_drive_file_id = doc.google_drive_file_id
    · rw [if_pos hc]
      exact ⟨rfl, rfl⟩
    · rw [if_neg hc]
      exact ⟨rfl, rfl⟩
  · intro d' hmem
    rcases List.mem_append.mp hmem with hold | hnew
    · exact h d' hold
    · rcases List.mem_singleton.mp hnew with rfl
      unfold ConsistentRow insertRow
      simp

/-- The transaction loop preserves the invariant on commit. -/
theorem consistent_saveDocumentsGo {f : DocumentToSave → Bool} :
    ∀ (ds : List DocumentToSave) (reg r : Registry),
      Consistent reg → saveDocumentsGo f reg ds = Except.ok r → Consistent r := by
  intro ds
  induction ds with
  | nil =>
      intro reg r h heq
      injection heq with h1
      subst h1
      exact h
  | cons d rest ih =>
      intro reg r h heq
      unfold saveDocumentsGo at heq
      split at heq
      · cases heq
      · exact ih _ _ (consistent_saveDocumentsRow d h) heq

/-- `saveDocuments` preserves the invariant: on commit by the loop lemma,
on rollback because the registry is unchanged. -/
theorem consistent_saveDocuments {reg : Registry} (ds : List DocumentToSave)
    (f : DocumentToSave → Bool) (h : Consistent reg) :
    Consistent (saveDocuments reg ds f).1 := by
  unfold saveDocuments
  rcases heq : saveDocumentsGo f reg ds with e | r
  · exact h
  · exact consistent_saveDocumentsGo ds reg r h heq

/-- `updateProcessingStatus` preserves the invariant: it derives
`processed` as `status === "completed"`. -/
theorem consistent_updateProcessingStatus {reg r : Registry} {i : Nat}
    {st : ProcStatus} {err : Option String} (h : Consistent reg)
    (heq : updateProcessingStatus reg i st err = Except.ok r) :
    Consistent r := by
  unfold updateProcessingStatus at heq
  split at heq
  · injection heq with h1
    subst h1
    intro d' hmem
    rcases List.mem_map.mp hmem with ⟨d0, hd0, rfl⟩
    by_cases hc : d0.id = i
    · rw [if_pos hc]
      unfold ConsistentRow
      simp
    · rw [if_neg hc]
      exact h d0 hd0
  · cases heq

/-- `markAsProcessed` preserves the invariant when its
`processing_status` argument is omitted or `"completed"`. -/
theorem consistent_markAsProcessed {reg r : Registry} {i : Nat}
    {res : Option String} {st : Option ProcStatus} (h : Consistent reg)
    (hst : st = none ∨ st = some ProcStatus.completed)
    (heq : markAsProcessed reg i res st = Except.ok r) : Consistent r := by
  unfold markAsProcessed at heq
  split at heq
  · injection heq with h1
    subst h1
    intro d' hmem
    rcases List.mem_map.mp hmem with ⟨d0, hd0, rfl⟩
    by_cases hc : d0.id = i
    · rw [if_pos hc]
      unfold ConsistentRow
      rcases hst with rfl | rfl <;> simp
    · rw [if_neg hc]
      exact h d0 hd0
  · cases heq

/-- One guarded operation preserves the invariant. -/
theorem consistent_applyOp (reg : Registry) (op : RegOp)
    (h : Consistent reg) (hop : GoodOp op) : Consistent (applyOp reg op) := by
  cases op with
  | saveDoc d => exact consistent_saveDocument d h
  | saveDocs ds f => exact consistent_saveDocuments ds f h
  | updStatus i st err =>
      simp only [applyOp]
      rcases heq : updateProcessingStatus reg i st err with e | r
      · exact h
      · exact consistent_updateProcessingStatus h heq
  | markProc i res st =>
      simp only [applyOp]
      rcases heq : markAsProcessed reg i res st with e | r
      · exact h
      · exact consistent_markAsProcessed h hop heq
  | markFail i err =>
      simp only [applyOp, markAsFailed]
      rcases heq : updateProcessingStatus reg i ProcStatus.failed (some err) with e | r
      · exact h
      · exact consistent_updateProcessingStatus h heq

/-- C2 as amended: for every sequence of registry operations in which each
`markAsProcessed` call omits `additionalData.processing_status` or passes
`"completed"` (which is what every call site in the source does), every row
satisfies `processed = true` iff `processing_status = completed`. With an
arbitrary `processing_status` argument the invariant is breakable
(see the counterexample). -/
theorem c2_processed_iff_completed_for_guarded_ops (ops : List RegOp)
    (reg : Registry) (hreg : Consistent reg)
    (hops : ∀ op ∈ ops, GoodOp op) : Consistent (applyOps reg ops) := by
  induction ops generalizing reg with
  | nil => exact hreg
  | cons op rest ih =>
      have h1 : Consistent (applyOp reg op) :=
        consistent_applyOp reg op hreg (hops op (List.mem_cons_self op rest))
      have h2 : ∀ o ∈ rest, GoodOp o := fun o ho =>
        hops o (List.mem_cons_of_mem op ho)
      exact ih (applyOp reg op) h1 h2

/-- The row after `markAsFailed(1, "boom")` on the one-pending registry. -/
def docBoomFailed : Document :=
  { docPending with
    processing_status := ProcStatus.failed
    processing_error := some "boom"
    updated_at := 3 }

/-- Witness for the amended C2: after a `markAsFailed`, the row still
satisfies the invariant. -/
theorem c2_amended_witness : ConsistentRow docBoomFailed :=
  c2_processed_iff_completed_for_guarded_ops [RegOp.markFail 1 "boom"]
    regOnePending (by decide)
    (fun op hop => by
      rw [List.mem_singleton] at hop
      subst hop
      trivial)
    docBoomFailed (by decide)

/-! ### C7 — the batch upsert is atomic per batch -/

/-- C7 (confirmed): `saveDocuments` is atomic. If any row of the batch
errors, the transaction rolls back and the registry is exactly the
caller's prior state; if it commits, the final state is the sequential
fold of the per-row upserts over the whole batch. -/
theorem c7_saveDocuments_atomic (reg : Registry) (docs : List DocumentToSave)
    (f : DocumentToSave → Bool) :
    ((saveDocuments reg docs f).2.isOk = false →
      (saveDocuments reg docs f).1 = reg) ∧
    ((saveDocuments reg docs f).2.isOk = true →
      (saveDocuments reg docs f).1 = docs.foldl saveDocumentsRow reg) := by
  have hgo : ∀ (ds : List DocumentToSave) (r0 r : Registry),
      saveDocumentsGo f r0 ds = Except.ok r → r = ds.foldl saveDocumentsRow r0 := by
    intro ds
    induction ds with
    | nil =>
        intro r0 r heq
        injection heq with h1
        subst h1
        rfl
    | cons d rest ih =>
        intro r0 r heq
        unfold saveDocumentsGo at heq
        split at heq
        · cases heq
        · exact ih _ _ heq
  unfold saveDocuments
  rcases heq : saveDocumentsGo f reg docs with e | r
  · exact ⟨fun _ => rfl, fun hok => Bool.noConfusion hok⟩
  · exact ⟨fun hab => Bool.noConfusion hab, fun _ => hgo docs reg r heq⟩

/-- A second remote file for batch fixtures. -/
def docToSaveB : DocumentToSave :=
  { user_id := "u1"
    google_drive_file_id := "g2"
    file_name := "b.pdf"
    file_path := "b.pdf"
    mime_type := "application/pdf"
    file_size := some 99
    google_drive_web_view_link := none
    last_modified_at := some 7
    local_file_path := some "temp/google-drive-files/u1/g2_b.pdf"
    downloaded_at := some 8 }

/-- Witness for C7: a batch whose second row errors leaves the registry
unchanged, and the same batch without errors commits to the fold of the
row upserts. -/
theorem c7_witness :
    (saveDocuments regOnePending [docToSaveB, docToSaveB]
      (fun d => d.google_drive_file_id == "g2")).1 = regOnePending ∧
    (saveDocuments regOnePending [docToSaveB] (fun _ => false)).1 =
      [docToSaveB].foldl saveDocumentsRow regOnePending :=
  ⟨(c7_saveDocuments_atomic regOnePending [docToSaveB, docToSaveB]
      (fun d => d.google_drive_file_id == "g2")).1 (by rfl),
   (c7_saveDocuments_atomic regOnePending [docToSaveB] (fun _ => false)).2 (by rfl)⟩

/-! ### C1 — the batch driver re-fetches `failed` documents -/

/-- A document that failed processing: `processing_status = failed`,
`processed = false` (only `completed` ever sets `processed = true`). -/
def docC1Failed : Document :=
  { docPending with
    processing_status := ProcStatus.failed
    processing_error := some "Flow execution failed: boom" }

/-- A registry whose only row is the failed document. -/
def regC1 : Registry := ⟨[docC1Failed], 2, 30⟩

/-- C1 (code bug, evaluated at the failing input): the batch driver's fetch
is `WHERE processed = false`, and a `failed` row has `processed = false`,
so the failed document is selected again on the next run and re-submitted
(its status is set back to `processing`), contradicting the claim — and the
repository's own documentation ("Documents marked as failed are not retried
automatically") — that `failed` is terminal under automatic processing. -/
theorem c1_failed_document_is_reprocessed :
    unprocessedQuery regC1 = [docC1Failed] ∧
    docC1Failed.processing_status = ProcStatus.failed ∧
    (processAllUnprocessedDocuments (fun _ => Except.error "stub")
      (fun _ _ => Except.error "stub") regC1 []).total = 1 ∧
    Ev.statusSet 1 ProcStatus.processing ∈
      (processAllUnprocessedDocuments (fun _ => Except.error "stub")
        (fun _ _ => Except.error "stub") regC1 []).trace := by
  refine ⟨by decide, by decide, by decide, by decide⟩

/-! ### Helper lemmas for the Processing Worker theorems -/

/-- A committed `updateProcessingStatus` run rewrites exactly the rows
carrying the targeted id. -/
theorem rows_ok_updateProcessingStatus {reg reg1 : Registry} {i : Nat}
    {st : ProcStatus} {err : Option String}
    (heq : updateProcessingStatus reg i st err = Except.ok reg1) :
    reg1.rows = reg.rows.map fun d =>
      if d.id = i then
        { d with
          processed := decide (st = ProcStatus.completed)
          processing_status := st
          processing_error := err
          updated_at := reg.clock }
      else d := by
  unfold updateProcessingStatus at heq
  split at heq
  · injection heq with h1
    subst h1
    rfl
  · cases heq

/-- A committed `markAsProcessed` run rewrites exactly the rows carrying
the targeted id. -/
theorem rows_ok_markAsProcessed {reg reg1 : Registry} {i : Nat}
    {res : Option String} {st : Option ProcStatus}
    (heq : markAsProcessed reg i res st = Except.ok reg1) :
    reg1.rows = reg.rows.map fun d =>
      if d.id = i then
        { d with
          processed := true
          processing_status := st.getD ProcStatus.completed
          result := res.or d.result
          updated_at := reg.clock }
      else d := by
  unfold markAsProcessed at heq
  split at heq
  · injection heq with h1
    subst h1
    rfl
  · cases heq

/-- A committed `updateProcessingStatus` run preserves which ids match. -/
theorem any_ok_updateProcessingStatus {reg reg1 : Registry} {i : Nat}
    {st : ProcStatus} {err : Option String}
    (heq : updateProcessingStatus reg i st err = Except.ok reg1) (j : Nat) :
    (reg1.rows.any fun d => d.id == j) = (reg.rows.any fun d => d.id == j) := by
  rw [rows_ok_updateProcessingStatus heq]
  exact any_id_map_update fun _ => rfl

/-- The catch block of `processDocument`, described: when `markAsFailed`
commits, the run returns `success = false` with the thrown message, the
filesystem untouched, a trailing `failed` status write in the trace, and
every row carrying the id marked `failed` with the message recorded. -/
theorem pdocCatch_out {reg1 : Registry} {fs : FS} {tr : List Ev} {docId : Nat}
    {msg : String} {out : PDocOut}
    (hany1 : (reg1.rows.any fun d => d.id == docId) = true)
    (h : pdocCatch reg1 fs tr docId msg = Except.ok out) :
    out.trace = tr ++ [Ev.statusSet docId ProcStatus.failed] ∧
    out.success = false ∧ out.fs = fs ∧
    ∀ d' ∈ out.reg.rows, d'.id = docId →
      d'.processing_status = ProcStatus.failed ∧
      d'.processing_error = some msg := by
  unfold pdocCatch markAsFailed updateProcessingStatus at h
  rw [if_pos hany1] at h
  injection h with h1
  subst h1
  refine ⟨rfl, rfl, rfl, ?_⟩
  intro d' hmem hid
  rcases row_of_mem_updateMap hmem hid with ⟨d0, _, _, rfl⟩
  exact ⟨rfl, rfl⟩

/-- Deleting a staged file removes every entry at its path. -/
theorem any_filter_ne (fs : FS) (p : String) :
    ((fs.filter fun e => e.1 != p).any fun e => e.1 == p) = false := by
  induction fs with
  | nil => rfl
  | cons e rest ih =>
      cases hbe : (e.1 == p) with
      | false => simp [List.filter_cons, bne, hbe, List.any_cons, ih]
      | true => simp [List.filter_cons, bne, hbe, ih]

/-- After `deleteFile`, the path no longer exists on disk. -/
theorem fileExists_deleteFile (fs : FS) (p : String) :
    fileExists (deleteFile fs p).1 p = false := by
  unfold deleteFile
  by_cases h : fileExists fs p
  · rw [if_pos h]
    exact any_filter_ne fs p
  · rw [if_neg h]
    exact Bool.eq_false_iff.mpr h

/-! ### C3 — the worker sets `processing` before verifying the staged file -/

/-- Counterexample to C3 as stated: on an empty staging area (no staged file
exists at all), the worker still drives the document to
`processing_status = processing` — the status write appears in the trace —
before failing it; the claim that a document "reaches `processing` only if
a staged file exists" is false. -/
theorem c3_counterexample :
    ((processDocument (Except.error "offline") (fun _ => Except.error "offline")
        regOnePending [] 1).map fun o => (o.trace, o.success)) =
      Except.ok
        ([Ev.statusSet 1 ProcStatus.processing, Ev.statusSet 1 ProcStatus.failed],
         false) ∧
    Ev.statusSet 1 ProcStatus.processing ∈
      [Ev.statusSet 1 ProcStatus.processing, Ev.statusSet 1 ProcStatus.failed] := by
  exact ⟨by rfl, by decide⟩

/-- C3 as amended: the worker transitions the document to `processing`
unconditionally right after fetching it; the staged-file check happens
after that but immediately before the external call, so when no staged
file exists the run makes no external call, returns failure, and leaves
every row carrying the id at `failed`. -/
theorem c3_verify_before_external_call
    (upload : Except String String) (runFlow : String → Except String String)
    (reg : Registry) (fs : FS) (docId : Nat) (doc : Document) (out : PDocOut)
    (hdoc : getDocumentById reg docId = some doc)
    (hmiss : ∀ p, doc.local_file_path = some p → fileExists fs p = false)
    (h : processDocument upload runFlow reg fs docId = Except.ok out) :
    Ev.statusSet docId ProcStatus.processing ∈ out.trace ∧
    Ev.extCall ∉ out.trace ∧
    out.success = false ∧
    ∀ d' ∈ out.reg.rows, d'.id = docId →
      d'.processing_status = ProcStatus.failed := by
  have hfind : List.find? (fun d => d.id == docId) reg.rows = some doc := hdoc
  have hmem : doc ∈ reg.rows := List.mem_of_find?_eq_some hfind
  have hbeq := List.find?_some hfind
  have hany : (reg.rows.any fun d => d.id == docId) = true :=
    List.any_eq_true.mpr ⟨doc, hmem, hbeq⟩
  unfold processDocument at h
  split at h
  next heq =>
    rw [hdoc] at heq
    cases heq
  next doc1 heq =>
    rw [hdoc] at heq
    injection heq with heq1
    subst heq1
    split at h
    next m heq2 =>
      unfold updateProcessingStatus at heq2
      rw [if_pos hany] at heq2
      exact Except.noConfusion heq2
    next reg1 heq2 =>
      have hany1 : (reg1.rows.any fun d => d.id == docId) = true := by
        rw [any_ok_updateProcessingStatus heq2]
        exact hany
      split at h
      next hlp =>
        obtain ⟨htr, hsucc, _, hrows⟩ := pdocCatch_out hany1 h
        refine ⟨?_, ?_, hsucc, fun d' hm hid => (hrows d' hm hid).1⟩
        · rw [htr]; simp
        · rw [htr]; simp
      next p hlp =>
        have hex : fileExists fs p = false := hmiss p hlp
        rw [if_neg (by rw [hex]; exact Bool.false_ne_true)] at h
        obtain ⟨htr, hsucc, _, hrows⟩ := pdocCatch_out hany1 h
        refine ⟨?_, ?_, hsucc, fun d' hm hid => (hrows d' hm hid).1⟩
        · rw [htr]; simp
        · rw [htr]; simp

/-- The failed row after running the worker on the pending document with no
staged copy. -/
def docC3Final : Document :=
  { docPending with
    processing_status := ProcStatus.failed
    processing_error := some "No local file path found for document"
    updated_at := 4 }

/-- The full outcome of that run. -/
def outC3 : PDocOut :=
  ⟨⟨[docC3Final], 2, 5⟩, [],
   [Ev.statusSet 1 ProcStatus.processing, Ev.statusSet 1 ProcStatus.failed],
   false, some "No local file path found for document"⟩

/-- Witness for the amended C3 at a concrete run with no staged file. -/
theorem c3_amended_witness : docC3Final.processing_status = ProcStatus.failed :=
  (c3_verify_before_external_call (Except.error "offline")
    (fun _ => Except.error "offline") regOnePending [] 1 docPending outC3
    (by rfl) (fun p hp => nomatch hp) (by rfl)).2.2.2
    docC3Final (by decide) rfl

/-! ### C5 — success clears the error but does NOT clear `local_file_path` -/

/-- A previously failed document whose staged copy is still on disk. -/
def docStagedFailed : Document :=
  { docPending with
    processing_status := ProcStatus.failed
    processing_error := some "boom"
    local_file_path := some "temp/google-drive-files/u1/g1_a.txt"
    downloaded_at := some 2 }

/-- Registry holding that document, clock at 20. -/
def regC5 : Registry := ⟨[docStagedFailed], 2, 20⟩

/-- The staging area holding its staged copy. -/
def fsC5 : FS := [("temp/google-drive-files/u1/g1_a.txt", 7)]

/-- Counterexample to C5 as stated: a fully successful run deletes the
staged file from disk (`fs` ends empty) and ends with
`processing_error = none`, but the row's `local_file_path` is NOT
cleared — it still references the now-deleted path — contradicting the
claim that `local_file_path` is cleared by the success path. -/
theorem c5_counterexample :
    ((processDocument (Except.ok "fid") (fun _ => Except.ok "res")
        regC5 fsC5 1).map fun o =>
      (o.success, o.fs, o.reg.rows.map fun d =>
        (d.processing_status, d.processing_error, d.local_file_path))) =
      Except.ok
        (true, ([] : FS),
         [(ProcStatus.completed, (none : Option String),
           some "temp/google-drive-files/u1/g1_a.txt")]) := by
  rfl

/-- C5 as amended: after the worker's success path, every row carrying the
document id is `completed`/`processed = true` with `processing_error = none`
(the error was nulled by the transition to `processing`, and
`markAsProcessed` does not touch it), and the staged file is gone from
disk — but the `local_file_path` column of every row is left exactly as it
was, so the completed row keeps a dangling reference to the deleted path. -/
theorem c5_success_clears_error_keeps_path
    (upload : Except String String) (runFlow : String → Except String String)
    (reg : Registry) (fs : FS) (docId : Nat) (doc : Document) (p : String)
    (out : PDocOut)
    (hdoc : getDocumentById reg docId = some doc)
    (hp : doc.local_file_path = some p)
    (h : processDocument upload runFlow reg fs docId = Except.ok out)
    (hs : out.success = true) :
    fileExists out.fs p = false ∧
    out.reg.rows.map Document.local_file_path =
      reg.rows.map Document.local_file_path ∧
    some p ∈ out.reg.rows.map Document.local_file_path ∧
    ∀ d' ∈ out.reg.rows, d'.id = docId →
      d'.processed = true ∧ d'.processing_status = ProcStatus.completed ∧
      d'.processing_error = none := by
  have hfind : List.find? (fun d => d.id == docId) reg.rows = some doc := hdoc
  have hmem : doc ∈ reg.rows := List.mem_of_find?_eq_some hfind
  have hbeq := List.find?_some hfind
  have hany : (reg.rows.any fun d => d.id == docId) = true :=
    List.any_eq_true.mpr ⟨doc, hmem, hbeq⟩
  unfold processDocument at h
  split at h
  next heq =>
    rw [hdoc] at heq
    cases heq
  next doc1 heq =>
    rw [hdoc] at heq
    injection heq with heq1
    subst heq1
    split at h
    next m heq2 =>
      unfold updateProcessingStatus at heq2
      rw [if_pos hany] at heq2
      exact Except.noConfusion heq2
    next reg1 heq2 =>
      have hany1 : (reg1.rows.any fun d => d.id == docId) = true := by
        rw [any_ok_updateProcessingStatus heq2]
        exact hany
      split at h
      next hlp =>
        rw [hlp] at hp
        cases hp
      next p0 hlp =>
        rw [hlp] at hp
        injection hp with hp1
        subst p0
        by_cases hex : fileExists fs p = true
        · rw [if_pos hex] at h
          split at h
          next e =>
            obtain ⟨_, hsucc, _, _⟩ := pdocCatch_out hany1 h
            rw [hsucc] at hs
            exact Bool.noConfusion hs
          next fileId =>
            split at h
            next e =>
              obtain ⟨_, hsucc, _, _⟩ := pdocCatch_out hany1 h
              rw [hsucc] at hs
              exact Bool.noConfusion hs
            next res =>
              split at h
              next m heq3 =>
                obtain ⟨_, hsucc, _, _⟩ := pdocCatch_out hany1 h
                rw [hsucc] at hs
                exact Bool.noConfusion hs
              next reg2 heq3 =>
                injection h with h1
                subst h1
                have hrows1 := rows_ok_updateProcessingStatus heq2
                have hrows2 := rows_ok_markAsProcessed heq3
                have step2 : reg2.rows.map Document.local_file_path =
                    reg1.rows.map Document.local_file_path := by
                  rw [hrows2]
                  apply map_proj_update
                  intro d
                  rfl
                have step1 : reg1.rows.map Document.local_file_path =
                    reg.rows.map Document.local_file_path := by
                  rw [hrows1]
                  apply map_proj_update
                  intro d
                  rfl
                refine ⟨fileExists_deleteFile fs p, ?_, ?_, ?_⟩
                · show reg2.rows.map Document.local_file_path =
                    reg.rows.map Document.local_file_path
                  rw [step2, step1]
                · show some p ∈ reg2.rows.map Document.local_file_path
                  rw [step2, step1]
                  exact List.mem_map.mpr ⟨doc, hmem, hlp⟩
                · intro d' hm hid
                  rw [hrows2] at hm
                  rcases row_of_mem_updateMap hm hid with ⟨d1, hd1, hid1, rfl⟩
                  rw [hrows1] at hd1
                  rcases row_of_mem_updateMap hd1 hid1 with ⟨d0, _, _, rfl⟩
                  exact ⟨rfl, rfl, rfl⟩
        · rw [if_neg hex] at h
          obtain ⟨_, hsucc, _, _⟩ := pdocCatch_out hany1 h
          rw [hsucc] at hs
          exact Bool.noConfusion hs

/-- The completed row after the successful run on `regC5`: note
`local_file_path` still present. -/
def docC5Final : Document :=
  { docStagedFailed with
    processed := true
    processing_status := ProcStatus.completed
    processing_error := none
    result := some "res"
    updated_at := 21 }

/-- The full outcome of the successful run. -/
def outC5 : PDocOut :=
  ⟨⟨[docC5Final], 2, 22⟩, [],
   [Ev.statusSet 1 ProcStatus.processing, Ev.extCall, Ev.extCall,
    Ev.statusSet 1 ProcStatus.completed,
    Ev.fileDel "temp/google-drive-files/u1/g1_a.txt"],
   true, none⟩

/-- Witness for the amended C5 at the concrete successful run. -/
theorem c5_amended_witness :
    docC5Final.processed = true ∧
    docC5Final.processing_status = ProcStatus.completed ∧
    docC5Final.processing_error = none :=
  (c5_success_clears_error_keeps_path (Except.ok "fid")
    (fun _ => Except.ok "res") regC5 fsC5 1 docStagedFailed
    "temp/google-drive-files/u1/g1_a.txt" outC5
    (by rfl) (by rfl) (by rfl) (by rfl)).2.2.2
    docC5Final (by decide) rfl

/-! ### C6 — download batching of `downloadAllUserFiles` -/

/-- `chunkArray` of the empty list is empty. -/
theorem chunkArray_nil {α : Type} (n : Nat) : chunkArray ([] : List α) n = [] := by
  unfold chunkArray
  cases n with
  | zero => simp
  | succ m =>
      simp [Nat.div_eq_of_lt (Nat.lt_succ_self m)]

/-- `chunkArray` peels off the first slice: one loop iteration. -/
theorem chunkArray_cons {α : Type} (l : List α) (n : Nat) (hl : l ≠ [])
    (hn : 0 < n) :
    chunkArray l n = l.take n :: chunkArray (l.drop n) n := by
  have hlen : 0 < l.length := List.length_pos.mpr hl
  have hk : (l.length + n - 1) / n = ((l.drop n).length + n - 1) / n + 1 := by
    rw [List.length_drop]
    rcases Nat.lt_or_ge l.length n with hlt | hge
    · have h0 : l.length - n = 0 := Nat.sub_eq_zero_of_le (Nat.le_of_lt hlt)
      rw [h0]
      have h1 : (l.length + n - 1) / n = 1 :=
        Nat.div_eq_of_lt_le (by omega) (by omega)
      have h2 : (0 + n - 1) / n = 0 := Nat.div_eq_of_lt (by omega)
      omega
    · have h3 : l.length + n - 1 = (l.length - n + n - 1) + n := by omega
      rw [h3, Nat.add_div_right _ hn]
  unfold chunkArray
  rw [hk, List.range_succ_eq_map, List.map_cons, List.map_map]
  have hhead : (l.drop (0 * n)).take n = l.take n := by
    simp
  rw [hhead]
  have hfun :
      ((fun i => (l.drop (i * n)).take n) ∘ Nat.succ) =
        fun i => ((l.drop n).drop (i * n)).take n := by
    funext i
    simp only [Function.comp]
    rw [List.drop_drop, Nat.succ_mul, Nat.add_comm]
  rw [hfun]

/-- The slices of `chunkArray` concatenate back to the input list. -/
theorem chunkArray_join {α : Type} (n : Nat) (hn : 0 < n) (l : List α) :
    (chunkArray l n).flatten = l := by
  generalize hk : l.length = k
  induction k using Nat.strong_induction_on generalizing l with
  | _ k ih =>
    rcases eq_or_ne l [] with rfl | hne
    · rw [chunkArray_nil]
      rfl
    · have hlen : 0 < l.length := List.length_pos.mpr hne
      have hdrop : (l.drop n).length < k := by
        rw [List.length_drop]
        omega
      rw [chunkArray_cons l n hne hn]
      rw [List.flatten_cons, ih _ hdrop (l.drop n) rfl]
      exact List.take_append_drop n l

/-- Every slice of `chunkArray` has at most `n` members. -/
theorem chunkArray_length_le {α : Type} (l : List α) (n : Nat) :
    ∀ c ∈ chunkArray l n, c.length ≤ n := by
  intro c hc
  rcases List.mem_map.mp hc with ⟨i, _, rfl⟩
  rw [List.length_take]
  exact min_le_left _ _

/-- The chunk loop downloads every member of every chunk in order, keeps the
successes, and emits no sleep events. -/
theorem dlGo_spec (oracle : String → Option Nat) (cs : List (List DriveFile)) :
    (dlGo oracle cs).1 =
      cs.flatten.filterMap (fun f => (oracle f.id).map fun t => (f.id, t)) ∧
    (dlGo oracle cs).2 = cs.flatten.map fun f => DlEvent.download f.id := by
  induction cs with
  | nil => exact ⟨rfl, rfl⟩
  | cons c cs ih =>
      refine ⟨?_, ?_⟩ <;>
        simp only [dlGo, List.flatten_cons, List.filterMap_append,
          List.map_append, ih.1, ih.2]

/-- A supported file named by its index, for the 7-file scenario. -/
def dfile (s : String) : DriveFile := ⟨s, s, "text/plain"⟩

/-- Seven supported files. -/
def filesC6 : List DriveFile :=
  [dfile "f1", dfile "f2", dfile "f3", dfile "f4", dfile "f5", dfile "f6",
   dfile "f7"]

/-- An oracle that fails exactly file 4. -/
def oracleC6 : String → Option Nat :=
  fun s => if s = "f4" then none else some 1

/-- Counterexample to C6 as stated: for 7 supported files the chunks are
sizes 3,3,1 and the forced failure of file 4 leaves files 1–3 and 5–7 in
the result — but the trace contains NO inter-batch sleep (the claimed ≈1s
pause does not exist in `downloadAllUserFiles`), and a file outside the
MIME allow-list is never downloaded at all rather than being partitioned
into a batch. -/
theorem c6_counterexample :
    ((chunkArray (filesC6.filter fun f => isSupportedDocumentType f.mimeType)
        3).map List.length = [3, 3, 1]) ∧
    (downloadAllUserFiles oracleC6 filesC6).1 =
      [("f1", 1), ("f2", 1), ("f3", 1), ("f5", 1), ("f6", 1), ("f7", 1)] ∧
    DlEvent.slept ∉ (downloadAllUserFiles oracleC6 filesC6).2 ∧
    downloadAllUserFiles (fun _ => some 1) [⟨"p1", "p1", "image/png"⟩] =
      ([], []) := by
  refine ⟨by decide, by decide, by decide, by decide⟩

/-- C6 as amended: `downloadAllUserFiles` first filters to the MIME
allow-list; the supported files are partitioned into consecutive batches
of at most 3 processed sequentially with NO inter-batch pause; every
supported file is attempted exactly once in order, and a failed file is
simply absent from the result while all others — in the same and later
batches — are returned. -/
theorem c6_download_batches (oracle : String → Option Nat)
    (files : List DriveFile) :
    (downloadAllUserFiles oracle files).1 =
      (files.filter fun f => isSupportedDocumentType f.mimeType).filterMap
        (fun f => (oracle f.id).map fun t => (f.id, t)) ∧
    (downloadAllUserFiles oracle files).2 =
      (files.filter fun f => isSupportedDocumentType f.mimeType).map
        (fun f => DlEvent.download f.id) ∧
    DlEvent.slept ∉ (downloadAllUserFiles oracle files).2 ∧
    ∀ c ∈ chunkArray (files.filter fun f => isSupportedDocumentType f.mimeType) 3,
      c.length ≤ 3 := by
  have hjoin :
      (chunkArray (files.filter fun f => isSupportedDocumentType f.mimeType)
        3).flatten = files.filter fun f => isSupportedDocumentType f.mimeType :=
    chunkArray_join 3 (by omega) _
  obtain ⟨h1, h2⟩ :=
    dlGo_spec oracle
      (chunkArray (files.filter fun f => isSupportedDocumentType f.mimeType) 3)
  refine ⟨?_, ?_, ?_, chunkArray_length_le _ 3⟩
  · show (dlGo oracle _).1 = _
    rw [h1, hjoin]
  · show (dlGo oracle _).2 = _
    rw [h2, hjoin]
  · show DlEvent.slept ∉ (dlGo oracle _).2
    rw [h2]
    intro hmem
    rcases List.mem_map.mp hmem with ⟨f, _, hEq⟩
    exact DlEvent.noConfusion hEq

/-- Witness for the amended C6: the third chunk of the 7-file scenario is a
genuine chunk and respects the bound. -/
theorem c6_amended_witness :
    [dfile "f7"] ∈
      chunkArray (filesC6.filter fun f => isSupportedDocumentType f.mimeType) 3 ∧
    ([dfile "f7"] : List DriveFile).length ≤ 3 :=
  ⟨by decide,
   (c6_download_batches oracleC6 filesC6).2.2.2 [dfile "f7"] (by decide)⟩

/-! ### C8 — staged file naming and overwrite behaviour -/

/-- The collapse step keeps the head character of its input. -/
theorem collapse_cons_head :
    ∀ (rest : List Char) (c : Char),
      ∃ t, collapseUnderscores (c :: rest) = c :: t := by
  intro rest
  induction rest with
  | nil => exact fun c => ⟨[], rfl⟩
  | cons c2 r ih =>
      intro c
      by_cases h : c = '_' ∧ c2 = '_'
      · obtain ⟨hc, hc2⟩ := h
        subst hc
        subst hc2
        obtain ⟨t, ht⟩ := ih '_'
        exact ⟨t, by simp [collapseUnderscores, ht]⟩
      · exact ⟨collapseUnderscores (c2 :: r), by simp [collapseUnderscores, h]⟩

/-- No two adjacent characters are both underscores. -/
def noAdjacentUnderscores : List Char → Bool
  | c1 :: c2 :: rest =>
      if c1 = '_' ∧ c2 = '_' then false else noAdjacentUnderscores (c2 :: rest)
  | _ => true

/-- After collapsing, no underscore run of length two survives. -/
theorem collapse_noAdj (l : List Char) :
    noAdjacentUnderscores (collapseUnderscores l) = true := by
  generalize hk : l.length = k
  induction k using Nat.strong_induction_on generalizing l with
  | _ k ih =>
    rcases l with _ | ⟨c1, _ | ⟨c2, r⟩⟩
    · rfl
    · rfl
    · by_cases h : c1 = '_' ∧ c2 = '_'
      · rw [show collapseUnderscores (c1 :: c2 :: r) =
            collapseUnderscores (c2 :: r) from by simp [collapseUnderscores, h]]
        exact ih (c2 :: r).length (by simp only [List.length_cons] at hk ⊢; omega) (c2 :: r) rfl
      · rw [show collapseUnderscores (c1 :: c2 :: r) =
            c1 :: collapseUnderscores (c2 :: r) from by
              simp [collapseUnderscores, h]]
        obtain ⟨t, ht⟩ := collapse_cons_head r c2
        rw [ht]
        have htail : noAdjacentUnderscores (c2 :: t) = true := by
          rw [← ht]
          exact ih (c2 :: r).length (by simp only [List.length_cons] at hk ⊢; omega) (c2 :: r) rfl
        unfold noAdjacentUnderscores
        rw [if_neg h]
        exact htail

/-- Dropping the last element preserves the no-adjacent-underscores
property. -/
theorem noAdj_dropLast (l : List Char)
    (h : noAdjacentUnderscores l = true) :
    noAdjacentUnderscores l.dropLast = true := by
  generalize hk : l.length = k
  induction k using Nat.strong_induction_on generalizing l with
  | _ k ih =>
    rcases l with _ | ⟨c1, _ | ⟨c2, r⟩⟩
    · rfl
    · rfl
    · have hstep : (c1 :: c2 :: r).dropLast = c1 :: (c2 :: r).dropLast := rfl
      rw [hstep]
      unfold noAdjacentUnderscores at h
      by_cases hc : c1 = '_' ∧ c2 = '_'
      · rw [if_pos hc] at h
        exact Bool.noConfusion h
      · rw [if_neg hc] at h
        have htail : noAdjacentUnderscores (c2 :: r).dropLast = true :=
          ih (c2 :: r).length (by simp only [List.length_cons] at hk ⊢; omega) (c2 :: r) h rfl
        rcases r with _ | ⟨c3, r'⟩
        · rfl
        · have hstep2 : (c2 :: c3 :: r').dropLast = c2 :: (c3 :: r').dropLast := rfl
          rw [hstep2] at htail ⊢
          unfold noAdjacentUnderscores
          rw [if_neg hc]
          exact htail

/-- The tail of a no-adjacent-underscores list still has the property. -/
theorem noAdj_tail (c : Char) (l : List Char)
    (h : noAdjacentUnderscores (c :: l) = true) :
    noAdjacentUnderscores l = true := by
  rcases l with _ | ⟨c2, r⟩
  · rfl
  · unfold noAdjacentUnderscores at h
    by_cases hc : c = '_' ∧ c2 = '_'
    · rw [if_pos hc] at h
      exact Bool.noConfusion h
    · rw [if_neg hc] at h
      exact h

/-- Edge stripping preserves the no-adjacent-underscores property. -/
theorem noAdj_stripEdge (l : List Char)
    (h : noAdjacentUnderscores l = true) :
    noAdjacentUnderscores (stripEdgeUnderscores l) = true := by
  rcases l with _ | ⟨c, rest⟩
  · rfl
  · by_cases hc : c = '_'
    · subst hc
      show noAdjacentUnderscores
        (if rest.getLast? = some '_' then rest.dropLast else rest) = true
      have h1 : noAdjacentUnderscores rest = true := noAdj_tail '_' rest h
      by_cases hlast : rest.getLast? = some '_'
      · rw [if_pos hlast]
        exact noAdj_dropLast rest h1
      · rw [if_neg hlast]
        exact h1
    · show noAdjacentUnderscores
        (if (if c = '_' then rest else c :: rest).getLast? = some '_'
         then (if c = '_' then rest else c :: rest).dropLast
         else (if c = '_' then rest else c :: rest)) = true
      rw [if_neg hc]
      by_cases hlast : (c :: rest).getLast? = some '_'
      · rw [if_pos hlast]
        exact noAdj_dropLast (c :: rest) h
      · rw [if_neg hlast]
        exact h

/-- Membership in the collapsed list implies membership in the input. -/
theorem mem_collapseUnderscores {c : Char} :
    ∀ l : List Char, c ∈ collapseUnderscores l → c ∈ l := by
  intro l
  generalize hk : l.length = k
  induction k using Nat.strong_induction_on generalizing l with
  | _ k ih =>
    rcases l with _ | ⟨c1, _ | ⟨c2, r⟩⟩
    · exact fun h => h
    · exact fun h => h
    · intro h
      by_cases hcc : c1 = '_' ∧ c2 = '_'
      · rw [show collapseUnderscores (c1 :: c2 :: r) =
            collapseUnderscores (c2 :: r) from by
              simp [collapseUnderscores, hcc]] at h
        exact List.mem_cons_of_mem c1
          (ih (c2 :: r).length (by simp only [List.length_cons] at hk ⊢; omega) (c2 :: r) rfl h)
      · rw [show collapseUnderscores (c1 :: c2 :: r) =
            c1 :: collapseUnderscores (c2 :: r) from by
              simp [collapseUnderscores, hcc]] at h
        rcases List.mem_cons.mp h with rfl | h2
        · exact List.mem_cons_self _ _
        · exact List.mem_cons_of_mem c1
            (ih (c2 :: r).length (by simp only [List.length_cons] at hk ⊢; omega) (c2 :: r) rfl h2)

/-- Membership in the edge-stripped list implies membership in the input. -/
theorem mem_stripEdgeUnderscores {c : Char} {l : List Char}
    (h : c ∈ stripEdgeUnderscores l) : c ∈ l := by
  rcases l with _ | ⟨c0, rest⟩
  · exact absurd h (List.not_mem_nil c)
  · by_cases hc : c0 = '_'
    · subst hc
      have h' : c ∈ (if rest.getLast? = some '_' then rest.dropLast else rest) := h
      have h1 : c ∈ rest := by
        by_cases hlast : rest.getLast? = some '_'
        · rw [if_pos hlast] at h'
          exact List.dropLast_subset rest h'
        · rw [if_neg hlast] at h'
          exact h'
      exact List.mem_cons_of_mem '_' h1
    · have h' : c ∈
          (if (if c0 = '_' then rest else c0 :: rest).getLast? = some '_'
           then (if c0 = '_' then rest else c0 :: rest).dropLast
           else (if c0 = '_' then rest else c0 :: rest)) := h
      rw [if_neg hc] at h'
      by_cases hlast : (c0 :: rest).getLast? = some '_'
      · rw [if_pos hlast] at h'
        exact List.dropLast_subset (c0 :: rest) h'
      · rw [if_neg hlast] at h'
        exact h' 

/-- Every character of the sanitized file name is in `[a-zA-Z0-9.-]` or an
underscore, and no two adjacent underscores survive. -/
theorem createSafeFileName_chars (name : String) :
    (∀ c ∈ (createSafeFileName name).data,
      isSafeChar c = true ∨ c = '_') ∧
    noAdjacentUnderscores (createSafeFileName name).data = true := by
  constructor
  · intro c hc
    have h1 : c ∈ collapseUnderscores
        (name.data.map fun c0 => if isSafeChar c0 then c0 else '_') :=
      mem_stripEdgeUnderscores hc
    have h2 : c ∈ name.data.map fun c0 => if isSafeChar c0 then c0 else '_' :=
      mem_collapseUnderscores _ h1
    rcases List.mem_map.mp h2 with ⟨c0, _, rfl⟩
    by_cases hs : isSafeChar c0 = true
    · rw [if_pos hs]
      exact Or.inl hs
    · rw [if_neg hs]
      exact Or.inr rfl
  · exact noAdj_stripEdge _ (collapse_noAdj _)

/-- One filesystem write leaves exactly one entry at the written path. -/
theorem fsCount_writeFileSync (fs : FS) (p : String) (v : Nat) :
    fsCount (writeFileSync fs p v) p = 1 := by
  unfold fsCount writeFileSync
  rw [List.filter_cons_of_pos (by simp)]
  rw [List.filter_filter]
  have hfun : (fun (e : String × Nat) => e.1 == p && e.1 != p) =
      fun _ => false := by
    funext e
    cases he : (e.1 == p) <;> simp [bne, he]
  rw [hfun, List.filter_false]
  rfl

/-- Counterexample to C8 as stated: the sanitizer does NOT collapse every
non-alphanumeric character — dots and hyphens are kept verbatim
(`"a.b"` stays `"a.b"`); and two saves for the same `(userId, remoteFileId)`
with different display names land on different paths, leaving two files on
disk, not one. -/
theorem c8_counterexample :
    createSafeFileName "a.b" = "a.b" ∧
    ('.'.isAlphanum = false) ∧
    ('.' : Char) ≠ '_' ∧
    (saveFileToLocal (saveFileToLocal [] 7 "a.txt" "u1" "f1").1 8
        "b.txt" "u1" "f1").1.length = 2 := by
  refine ⟨by decide, by decide, by decide, by decide⟩

/-- C8 as amended: the staged path is
`{tempDir}/{userId}/{fileId}_{createSafeFileName(fileName)}` where the
sanitizer turns every character outside `[a-zA-Z0-9.-]` into an
underscore, collapses underscore runs (no two adjacent underscores
survive) and trims one leading/trailing underscore; saving twice for the
same `(userId, remoteFileId, fileName)` returns the same path both times
and leaves exactly one filesystem entry at it. -/
theorem c8_staged_name_and_overwrite (fs : FS) (b b2 : Nat)
    (name u fid : String) :
    (saveFileToLocal fs b name u fid).2 =
      tempDir ++ "/" ++ u ++ "/" ++ fid ++ "_" ++ createSafeFileName name ∧
    (∀ c ∈ (createSafeFileName name).data, isSafeChar c = true ∨ c = '_') ∧
    noAdjacentUnderscores (createSafeFileName name).data = true ∧
    fsCount (saveFileToLocal fs b name u fid).1
      (saveFileToLocal fs b name u fid).2 = 1 ∧
    (saveFileToLocal (saveFileToLocal fs b name u fid).1 b2 name u fid).2 =
      (saveFileToLocal fs b name u fid).2 ∧
    fsCount (saveFileToLocal (saveFileToLocal fs b name u fid).1 b2 name u fid).1
      (saveFileToLocal fs b name u fid).2 = 1 := by
  refine ⟨rfl, (createSafeFileName_chars name).1,
    (createSafeFileName_chars name).2, fsCount_writeFileSync _ _ _, rfl,
    fsCount_writeFileSync _ _ _⟩

/-- Witness for the amended C8 at a concrete file name. -/
theorem c8_amended_witness :
    isSafeChar 'a' = true ∨ ('a' : Char) = '_' :=
  (c8_staged_name_and_overwrite [] 1 2 "a b.txt" "u1" "f1").2.1 'a' (by decide)

/-! ### C9 — the Scheduler has no re-entrancy guard -/

/-- Counterexample to C9 as stated: overlapping batch-driver invocations are
reachable. After `start()`, the cron timer fires a second time while the
first invocation is still in flight — the callback performs no busy check —
reaching a state with two invocations active, which refutes "at most one
batch-driver invocation triggered by the Scheduler is active at any time". -/
theorem c9_counterexample :
    ¬ (∀ s : SchedState, SchedReachable s → s.inFlight ≤ 1) := by
  intro hclaim
  have h0 : SchedReachable ⟨true, 0⟩ :=
    Relation.ReflTransGen.single (SchedStep.startIdle schedInit rfl)
  have h1 : SchedReachable ⟨true, 1⟩ :=
    h0.tail (SchedStep.tick ⟨true, 0⟩ rfl)
  have h2 : SchedReachable ⟨true, 2⟩ :=
    h1.tail (SchedStep.tick ⟨true, 1⟩ rfl)
  have h3 : (2 : Nat) ≤ 1 := hclaim ⟨true, 2⟩ h2
  omega

/-- C9 as amended: the source's `CronjobService` tracks only whether the cron
job is scheduled, not whether a run is in flight. `start()` on a running
service is a no-op (no second timer is created), but whenever the service
is running a timer tick may start another batch-driver invocation
regardless of how many are already in flight — there is no re-entrancy
guard. -/
theorem c9_no_reentrancy_guard (s : SchedState) (h : s.isRunning = true) :
    SchedStep s { s with inFlight := s.inFlight + 1 } ∧ SchedStep s s :=
  ⟨SchedStep.tick s h, SchedStep.startBusy s h⟩

/-- Witness for the amended C9: from a running state with 5 invocations in
flight, a tick still fires a sixth, and `start()` changes nothing. -/
theorem c9_amended_witness :
    SchedStep ⟨true, 5⟩ ⟨true, 6⟩ ∧ SchedStep ⟨true, 5⟩ ⟨true, 5⟩ :=
  c9_no_reentrancy_guard ⟨true, 5⟩ rfl

end CalBack
